import Mathlib

/-!
Verification of the redis-rust sharded key-value server.

This file gives a shallow embedding, in Lean 4, of the parts of the
repository that the specification's claims are about:

* the key-to-shard hash routing used by `production/sharded_state.rs`,
  `production/sharded_actor.rs` and `production/replicated_state.rs`;
* the consistent hash ring of `replication/hash_ring.rs`;
* the delta recording of `ReplicatedShard::record_mutation_post_execute`
  and the delta routing of `ReplicatedShardedState::execute` /
  `execute_global` in `production/replicated_state.rs`;
* the connection handler loops of `production/connection.rs` and
  `production/connection_optimized.rs`;
* the buffer pool of `production/connection_pool.rs`;
* the fault-injection predicate of `buggify/config.rs`;
* the mailbox-failure error paths of `ShardHandle::execute` and
  `ReplicatedShardHandle::execute`.

Rust machine integers are modelled as `Nat` (with explicit `% 2 ^ 64`
where truncation matters), `f64` probabilities as `Rat`, byte buffers as
`List UInt8`, and hash maps as association lists.  The standard-library
hash (`DefaultHasher`) is not part of the repository; definitions that
use it are parameterised by the hash function.  A few modules of the
repository (`redis/commands.rs`, `redis/data.rs`, `replication/state.rs`,
`replication/lattice.rs`) are referenced by the code under verification
but their sources are not available; the corresponding definitions are
modelled from the specification and are marked as such in their doc
comments.
-/

namespace RedisRust

/-! ## RESP values

Modelled from `RespValue` as used by the files under `production/`
(`SimpleString`, `Error`, `Integer`, `BulkString`, `Array`); string and
byte payloads are both modelled as `String`. -/

inductive RespValue where
  | SimpleString (s : String)
  | Error (s : String)
  | Integer (n : Int)
  | BulkString (b : Option String)
  | ArrayV (xs : Option (List RespValue))
  deriving Repr, BEq

/-! ## Values and commands

`Modelled from the spec:` the `Value` sum type and the `Command` enum
live in `redis/data.rs` and `redis/commands.rs`, which are not among the
available sources.  The variants below follow spec section 3 ("Value - a
sum type") and section 6 (the supported command table), restricted to
the commands that the available production sources dispatch on.
`Value.as_string` returns the payload for the string variant only, as
used by `record_mutation_post_execute`. -/

inductive Value where
  | str (s : String)
  | int (n : Int)
  | hash (fields : List (String × String))
  | list (xs : List String)
  | set (xs : List String)
  | zset (xs : List (String × Int))
  deriving Repr, BEq, DecidableEq

def Value.as_string : Value → Option String
  | .str s => some s
  | _ => none

inductive Command where
  | Ping
  | Info
  | FlushDb
  | FlushAll
  | Keys (pattern : String)
  | MGet (keys : List String)
  | MSet (pairs : List (String × String))
  | Exists (keys : List String)
  | Get (key : String)
  | Set (key : String) (value : String)
  | SetEx (key : String) (seconds : Nat) (value : String)
  | SetNx (key : String) (value : String)
  | GetSet (key : String) (value : String)
  | Del (key : String)
  | Incr (key : String)
  | Decr (key : String)
  | IncrBy (key : String) (n : Int)
  | DecrBy (key : String) (n : Int)
  | Append (key : String) (value : String)
  | Strlen (key : String)
  | Expire (key : String) (seconds : Nat)
  | Ttl (key : String)
  | Persist (key : String)
  deriving Repr, BEq, DecidableEq

/-- `Modelled from the spec:` `Command::get_primary_key` lives in the
missing `redis/commands.rs`.  Per spec sections 4.5 and 6, single-key
commands report their key; the administrative and multi-key commands
(`PING`, `INFO`, `FLUSHDB`, `FLUSHALL`, `KEYS`, `MGET`, `MSET`,
`EXISTS`) report none, which is what the dispatchers under
`production/` rely on. -/
def Command.get_primary_key : Command → Option String
  | .Ping | .Info | .FlushDb | .FlushAll | .Keys _ => none
  | .MGet _ | .MSet _ | .Exists _ => none
  | .Get k => some k
  | .Set k _ => some k
  | .SetEx k _ _ => some k
  | .SetNx k _ => some k
  | .GetSet k _ => some k
  | .Del k => some k
  | .Incr k => some k
  | .Decr k => some k
  | .IncrBy k _ => some k
  | .DecrBy k _ => some k
  | .Append k _ => some k
  | .Strlen k => some k
  | .Expire k _ => some k
  | .Ttl k => some k
  | .Persist k => some k

/-! ## Key-to-shard hashing (C2)

Each of `production/sharded_state.rs`, `production/sharded_actor.rs`
and `production/replicated_state.rs` defines

    const NUM_SHARDS: usize = 16;
    fn hash_key(key: &str) -> usize {
        let mut hasher = DefaultHasher::new();
        key.hash(&mut hasher);
        (hasher.finish() as usize) % NUM_SHARDS
    }

`DefaultHasher` is the standard library's stable 64-bit hasher, not
repository code, so the three definitions are parameterised by the hash
function `h`; `hasher.finish()` is a `u64`, modelled by truncating `h`
to 64 bits. -/

def NUM_SHARDS : Nat := 16

namespace ShardedState

def hash_key (h : String → Nat) (key : String) : Nat :=
  (h key % 2 ^ 64) % NUM_SHARDS

end ShardedState

namespace ShardedActor

def hash_key (h : String → Nat) (key : String) : Nat :=
  (h key % 2 ^ 64) % NUM_SHARDS

end ShardedActor

namespace ReplicatedState

def hash_key (h : String → Nat) (key : String) : Nat :=
  (h key % 2 ^ 64) % NUM_SHARDS

end ReplicatedState

/-! The routing structure of `ShardedRedisState::execute`
(`production/sharded_state.rs`, default match arm): a command that has a
primary key is executed on the shard selected by `hash_key`; a command
without one falls through to shard 0.  The per-shard executor
(`CommandExecutor`, missing source) is abstracted as a step function
`step`; shards are the 16-entry array of executor states. -/

def ShardedState.executeDefaultArm {E : Type} (h : String → Nat)
    (step : Command → E → E × RespValue)
    (shards : Fin NUM_SHARDS → E) (cmd : Command) :
    (Fin NUM_SHARDS → E) × RespValue :=
  match cmd.get_primary_key with
  | some key =>
      let idx : Fin NUM_SHARDS := ⟨ShardedState.hash_key h key, Nat.mod_lt _ (by decide)⟩
      let r := step cmd (shards idx)
      (Function.update shards idx r.1, r.2)
  | none =>
      let z : Fin NUM_SHARDS := ⟨0, by decide⟩
      let r := step cmd (shards z)
      (Function.update shards z r.1, r.2)

/-! ## CRDT replicated values (C1)

`Modelled from the spec:` the Lamport clock and `ReplicatedValue` live
in `replication/lattice.rs` and `replication/state.rs`, which are not
among the available sources (only their callers are).  The definitions
follow spec section 3 ("Replicated value", "Lamport clock") and the
merge pseudocode of section 4.9:

    let ord = compare(
      (self.lamport.time, self.lamport.replica_id),
      (other.lamport.time, other.lamport.replica_id))
    winner = if ord == Less then other else self
    self := winner

with `compare` the lexicographic order on the pair. -/

structure LamportClock where
  time : Nat
  replica_id : Nat
  deriving Repr, BEq, DecidableEq

/-- Lexicographic strict order on `(time, replica_id)` Lamport tuples:
the `Less` outcome of the comparison in the merge pseudocode. -/
def LamportClock.lt (a b : LamportClock) : Bool :=
  a.time < b.time || (a.time == b.time && a.replica_id < b.replica_id)

structure ReplicatedValue where
  payload : Option String
  tombstone : Bool
  lamport : LamportClock
  vclock : Option (List (Nat × Nat))
  expiry_ms : Option Nat
  deriving Repr, BEq, DecidableEq

/-- `Modelled from the spec:` `ReplicatedValue::merge` (section 4.9).
If the receiver's Lamport tuple is strictly below the other's, the other
operand wins; otherwise (including exact tuple ties) the receiver is
kept.  Tombstones carry no special case: only the Lamport tuples are
compared. -/
def ReplicatedValue.merge (a b : ReplicatedValue) : ReplicatedValue :=
  if LamportClock.lt a.lamport b.lamport then b else a

def ReplicatedValue.is_tombstone (v : ReplicatedValue) : Bool :=
  v.tombstone

/-- `Modelled from the spec:` accessor used by the production sources;
a tombstone has `payload = None`, so `get` is the payload. -/
def ReplicatedValue.get (v : ReplicatedValue) : Option String :=
  v.payload

/-- Replication delta, from spec section 3:
`{ key, replicated_value, origin_replica }`. -/
structure ReplicationDelta where
  key : String
  value : ReplicatedValue
  origin : Nat
  deriving Repr, BEq, DecidableEq

/-! ## Per-shard replica state

`Modelled from the spec:` `ShardReplicaState` (`replication/state.rs`)
is not among the available sources.  Per spec sections 3 and 4.9-4.10 it
keeps the shard's Lamport clock, the map of replicated values and the
pending-delta queue; `record_write` advances the clock
(`time <- time + 1` on local write), installs the written value and
returns its delta, and `record_delete` installs a tombstone and returns
its delta when the key is tracked (a delete of an untracked key is not a
successful mutation and yields no delta). -/

structure ShardReplicaState where
  replica_id : Nat
  clock_time : Nat
  replicated_keys : List (String × ReplicatedValue)
  pending : List ReplicationDelta
  deriving Repr

def ShardReplicaState.new (replica_id : Nat) : ShardReplicaState :=
  { replica_id := replica_id, clock_time := 0, replicated_keys := [], pending := [] }

def listInsert {α : Type} (m : List (String × α)) (k : String) (v : α) :
    List (String × α) :=
  (k, v) :: m.filter (fun p => p.1 ≠ k)

def listLookup {α : Type} (m : List (String × α)) (k : String) : Option α :=
  (m.find? (fun p => p.1 = k)).map Prod.snd

def ShardReplicaState.record_write (st : ShardReplicaState) (key : String)
    (value : String) (expiry_ms : Option Nat) :
    ShardReplicaState × ReplicationDelta :=
  let t := st.clock_time + 1
  let rv : ReplicatedValue :=
    { payload := some value, tombstone := false,
      lamport := { time := t, replica_id := st.replica_id },
      vclock := none, expiry_ms := expiry_ms }
  let d : ReplicationDelta := { key := key, value := rv, origin := st.replica_id }
  ({ st with clock_time := t,
             replicated_keys := listInsert st.replicated_keys key rv,
             pending := st.pending ++ [d] }, d)

def ShardReplicaState.record_delete (st : ShardReplicaState) (key : String) :
    ShardReplicaState × Option ReplicationDelta :=
  match listLookup st.replicated_keys key with
  | none => (st, none)
  | some _ =>
      let t := st.clock_time + 1
      let rv : ReplicatedValue :=
        { payload := none, tombstone := true,
          lamport := { time := t, replica_id := st.replica_id },
          vclock := none, expiry_ms := none }
      let d : ReplicationDelta := { key := key, value := rv, origin := st.replica_id }
      ({ st with clock_time := t,
                 replicated_keys := listInsert st.replicated_keys key rv,
                 pending := st.pending ++ [d] }, some d)

/-! ## Command executor (C5)

`Modelled from the spec:` `CommandExecutor` lives in the missing
`redis/commands.rs`.  Spec section 4.3: the executor applies one command
to the shard's `data` and `ttl` maps; "on every call, it first performs
lazy expiry: if the accessed key has `expiry_ms <= now`, it is removed
and the operation proceeds as if the key were absent".  The string
commands needed by the claims (GET, SET, SETEX, SETNX) follow standard
Redis semantics per that section. -/

structure ExecutorState where
  data : List (String × Value)
  expires : List (String × Nat)
  now : Nat
  deriving Repr

def ExecutorState.new : ExecutorState :=
  { data := [], expires := [], now := 0 }

def ExecutorState.set_time (st : ExecutorState) (now : Nat) : ExecutorState :=
  { st with now := now }

/-- Lazy expiry of one key: if the key has an expiry entry with
`expiry_ms <= now`, remove it from both maps. -/
def ExecutorState.lazyExpire (st : ExecutorState) (key : String) : ExecutorState :=
  match listLookup st.expires key with
  | some e =>
      if e ≤ st.now then
        { st with data := st.data.filter (fun p => p.1 ≠ key),
                  expires := st.expires.filter (fun p => p.1 ≠ key) }
      else st
  | none => st

def ExecutorState.execGet (st : ExecutorState) (key : String) :
    ExecutorState × RespValue :=
  let st := st.lazyExpire key
  match listLookup st.data key with
  | some v =>
      match v.as_string with
      | some s => (st, RespValue.BulkString (some s))
      | none => (st, RespValue.Error "WRONGTYPE Operation against a key holding the wrong kind of value")
  | none => (st, RespValue.BulkString none)

def ExecutorState.execSet (st : ExecutorState) (key value : String) :
    ExecutorState × RespValue :=
  let st := st.lazyExpire key
  ({ st with data := listInsert st.data key (Value.str value),
             expires := st.expires.filter (fun p => p.1 ≠ key) },
   RespValue.SimpleString "OK")

def ExecutorState.execSetEx (st : ExecutorState) (key : String) (seconds : Nat)
    (value : String) : ExecutorState × RespValue :=
  let st := st.lazyExpire key
  ({ st with data := listInsert st.data key (Value.str value),
             expires := listInsert st.expires key (st.now + seconds * 1000) },
   RespValue.SimpleString "OK")

def ExecutorState.execSetNx (st : ExecutorState) (key value : String) :
    ExecutorState × RespValue :=
  let st := st.lazyExpire key
  match listLookup st.data key with
  | some _ => (st, RespValue.Integer 0)
  | none =>
      ({ st with data := listInsert st.data key (Value.str value) },
       RespValue.Integer 1)

/-- The executor dispatch restricted to the commands the replicated
claims exercise; other commands leave the state unchanged.  (Mutation
semantics of the remaining commands are irrelevant to the claims that
use this model.) -/
def ExecutorState.execute (st : ExecutorState) : Command → ExecutorState × RespValue
  | .Get key => st.execGet key
  | .Set key value => st.execSet key value
  | .SetEx key seconds value => st.execSetEx key seconds value
  | .SetNx key value => st.execSetNx key value
  | cmd => (st, RespValue.Error ("ERR unmodelled command".append (toString (repr cmd))))

def ExecutorState.get_data (st : ExecutorState) : List (String × Value) :=
  st.data

/-! ## Replicated shard (C4, C10)

Embeds `ReplicatedShard` of `production/replicated_state.rs` (lines
39-120).  `record_mutation_post_execute` is translated arm by arm from
lines 58-93; `ReplicatedShardActor::record_mutation_post_execute`
(`production/replicated_shard_actor.rs` lines 246-281) is textually the
same function over the same fields. -/

structure ReplicatedShard where
  executor : ExecutorState
  replica_state : ShardReplicaState
  deriving Repr

/-- `ReplicatedShard::record_mutation_post_execute`
(`production/replicated_state.rs:58`).  Runs after the executor has
executed `cmd`; inspects the executor's post-state via `get_data`. -/
def ReplicatedShard.record_mutation_post_execute (sh : ReplicatedShard)
    (cmd : Command) : ReplicatedShard × Option ReplicationDelta :=
  match cmd with
  | .Set key value =>
      let r := sh.replica_state.record_write key value none
      ({ sh with replica_state := r.1 }, some r.2)
  | .SetEx key seconds value =>
      let expiry_ms := seconds * 1000
      let r := sh.replica_state.record_write key value (some expiry_ms)
      ({ sh with replica_state := r.1 }, some r.2)
  | .SetNx key value =>
      match listLookup sh.executor.get_data key with
      | some v =>
          match v.as_string with
          | some _ =>
              let r := sh.replica_state.record_write key value none
              ({ sh with replica_state := r.1 }, some r.2)
          | none => (sh, none)
      | none => (sh, none)
  | .Del key =>
      let r := sh.replica_state.record_delete key
      ({ sh with replica_state := r.1 }, r.2)
  | .Incr key | .Decr key | .IncrBy key _ | .DecrBy key _
  | .Append key _ | .GetSet key _ =>
      match listLookup sh.executor.get_data key with
      | some v =>
          match v.as_string with
          | some sds =>
              let r := sh.replica_state.record_write key sds none
              ({ sh with replica_state := r.1 }, some r.2)
          | none => (sh, none)
      | none => (sh, none)
  | .FlushDb => (sh, none)
  | .FlushAll => (sh, none)
  | _ => (sh, none)

/-- `ReplicatedShard::execute` (`production/replicated_state.rs:52`):
execute on the wrapped executor, then record the mutation. -/
def ReplicatedShard.execute (sh : ReplicatedShard) (cmd : Command) :
    ReplicatedShard × RespValue × Option ReplicationDelta :=
  let e := sh.executor.execute cmd
  let sh := { sh with executor := e.1 }
  let r := sh.record_mutation_post_execute cmd
  (r.1, e.2, r.2)

/-! ## Replicated sharded state (C10)

Embeds the delta-routing of `ReplicatedShardedState::execute`
(`production/replicated_state.rs:224`) and the `MSET` arm of
`execute_global` (lines 268-276).  The gossip backend and the delta sink
are observed through the list of deltas handed to
`queue_deltas`/`DeltaSinkSender::send`. -/

structure ReplicatedShardedState where
  shards : Fin NUM_SHARDS → ReplicatedShard
  config_enabled : Bool
  has_delta_sink : Bool
  gossip_queued : List ReplicationDelta
  sink_sent : List ReplicationDelta

def shardIdxOf (h : String → Nat) (key : String) : Fin NUM_SHARDS :=
  ⟨ReplicatedState.hash_key h key, Nat.mod_lt _ (by decide)⟩

/-- The single-key path of `ReplicatedShardedState::execute`
(lines 225-255): route to the owning shard, and if a delta was produced,
queue it to the gossip backend (when replication is enabled) and send it
to the delta sink (when one is installed). -/
def ReplicatedShardedState.executeSingleKey (h : String → Nat)
    (st : ReplicatedShardedState) (cmd : Command) (key : String) :
    ReplicatedShardedState × RespValue :=
  let idx := shardIdxOf h key
  let r := (st.shards idx).execute cmd
  let st := { st with shards := Function.update st.shards idx r.1 }
  match r.2.2 with
  | some delta =>
      let st :=
        if st.config_enabled then
          { st with gossip_queued := st.gossip_queued ++ [delta] }
        else st
      let st :=
        if st.has_delta_sink then
          { st with sink_sent := st.sink_sent ++ [delta] }
        else st
      (st, r.2.1)
  | none => (st, r.2.1)

/-- The `MSET` arm of `ReplicatedShardedState::execute_global`
(lines 268-276): each pair is executed as a `SET` on its owning shard,
and the `(result, delta)` pair returned by `ReplicatedShard::execute` is
dropped on the floor. -/
def ReplicatedShardedState.executeGlobalMSet (h : String → Nat)
    (st : ReplicatedShardedState) (pairs : List (String × String)) :
    ReplicatedShardedState × RespValue :=
  let st := pairs.foldl
    (fun st kv =>
      let idx := shardIdxOf h kv.1
      let r := (st.shards idx).execute (Command.Set kv.1 kv.2)
      { st with shards := Function.update st.shards idx r.1 })
    st
  (st, RespValue.SimpleString "OK")

/-- `ReplicatedShardedState::execute` (line 224): commands with a
primary key take the single-key path; `MSET` (no primary key) goes to
`execute_global`. -/
def ReplicatedShardedState.execute (h : String → Nat)
    (st : ReplicatedShardedState) (cmd : Command) :
    ReplicatedShardedState × RespValue :=
  match cmd.get_primary_key with
  | some key => st.executeSingleKey h cmd key
  | none =>
      match cmd with
      | .MSet pairs => st.executeGlobalMSet h pairs
      | .Ping => (st, RespValue.SimpleString "PONG")
      | _ => (st, RespValue.Error "ERR unknown command")

/-! ## Shard handles and mailbox failure (C9)

Embeds the error paths of `ShardHandle::execute`
(`production/sharded_actor.rs:48-61`) and
`ReplicatedShardHandle::execute`
(`production/replicated_shard_actor.rs:73-81`).  The mailbox send and
the oneshot reply are the only effects; they are abstracted as the
`sendFails` flag and the optional reply (a dropped reply channel yields
`none`). -/

/-- `ShardHandle::execute`: on send failure the caller gets
`Error("Shard unavailable")`; on a dropped reply channel,
`Error("Shard response failed")`. -/
def ShardHandle.executeResult (sendFails : Bool) (reply : Option RespValue) :
    RespValue :=
  if sendFails then RespValue.Error "Shard unavailable"
  else reply.getD (RespValue.Error "Shard response failed")

/-- `ReplicatedShardHandle::execute`: on send failure the caller gets
`(Error("ERR shard unavailable"), None)`; on a dropped reply channel,
`(Error("ERR shard response failed"), None)`. -/
def ReplicatedShardHandle.executeResult (sendFails : Bool)
    (reply : Option (RespValue × Option ReplicationDelta)) :
    RespValue × Option ReplicationDelta :=
  if sendFails then (RespValue.Error "ERR shard unavailable", none)
  else reply.getD (RespValue.Error "ERR shard response failed", none)

/-! ## Buffer pool (C7)

Embeds `BufferPoolAsync` (`production/connection_pool.rs:60-84`).  A
`BytesMut` is modelled by its length and capacity; `clear` zeroes the
length and keeps the capacity.  The `crossbeam` `ArrayQueue` is a
bounded FIFO: `new(size)` bounds the queue at `size` elements, `pop`
takes from the front, and `push` appends at the back, failing (and
dropping the element) when the queue already holds `size` elements. -/

structure BytesMut where
  len : Nat
  cap : Nat
  deriving Repr, BEq, DecidableEq

def BytesMut.with_capacity (c : Nat) : BytesMut :=
  { len := 0, cap := c }

structure BufferPoolAsync where
  pool : List BytesMut
  size : Nat
  capacity : Nat
  deriving Repr, BEq, DecidableEq

/-- `BufferPoolAsync::new(size, buffer_capacity)`: an `ArrayQueue` of
bound `size`, pre-filled with `size` fresh buffers of the nominal
capacity (each `push` succeeds since exactly `size` are pushed). -/
def BufferPoolAsync.new (size buffer_capacity : Nat) : BufferPoolAsync :=
  { pool := List.replicate size (BytesMut.with_capacity buffer_capacity),
    size := size, capacity := buffer_capacity }

/-- `BufferPoolAsync::acquire`: pop from the pool, or allocate a fresh
buffer of the nominal capacity. -/
def BufferPoolAsync.acquire (p : BufferPoolAsync) : BytesMut × BufferPoolAsync :=
  match p.pool with
  | [] => (BytesMut.with_capacity p.capacity, p)
  | b :: rest => (b, { p with pool := rest })

/-- `BufferPoolAsync::release`: clear the buffer, then push it back if
its capacity is at most twice the nominal capacity; the push silently
fails when the bounded queue is full, dropping the buffer. -/
def BufferPoolAsync.release (p : BufferPoolAsync) (buf : BytesMut) :
    BufferPoolAsync :=
  let buf := { buf with len := 0 }
  if buf.cap ≤ p.capacity * 2 then
    if p.pool.length < p.size then { p with pool := p.pool ++ [buf] } else p
  else p

/-! ## BUGGIFY fault configuration (C8)

Embeds `FaultConfig` (`buggify/config.rs`).  `f64` probabilities are
modelled as rationals; `HashMap<&str, f64>` as an association list.
Only the constructors the claim touches are embedded (`new`,
`disabled`, `set`, `get`, `should_trigger`). -/

structure FaultConfig where
  enabled : Bool
  probabilities : List (String × Rat)
  global_multiplier : Rat
  deriving Repr

def ratClamp (x lo hi : Rat) : Rat :=
  max lo (min x hi)

def FaultConfig.new : FaultConfig :=
  { enabled := true, probabilities := [], global_multiplier := 1 }

/-- `FaultConfig::disabled` (`buggify/config.rs:37-43`). -/
def FaultConfig.disabled : FaultConfig :=
  { enabled := false, probabilities := [], global_multiplier := 0 }

/-- `FaultConfig::set` (`buggify/config.rs:160-164`): insert the
probability clamped to `[0, 1]`. -/
def FaultConfig.set (c : FaultConfig) (fault_id : String) (probability : Rat) :
    FaultConfig :=
  { c with probabilities :=
      listInsert c.probabilities fault_id (ratClamp probability 0 1) }

/-- `FaultConfig::get` (`buggify/config.rs:167-173`): `0` when disabled,
otherwise the stored probability (defaulting to `0`) times the global
multiplier, clamped to `[0, 1]`. -/
def FaultConfig.get (c : FaultConfig) (fault_id : String) : Rat :=
  if !c.enabled then 0
  else
    let base := (listLookup c.probabilities fault_id).getD 0
    ratClamp (base * c.global_multiplier) 0 1

/-- `FaultConfig::should_trigger` (`buggify/config.rs:176-178`). -/
def FaultConfig.should_trigger (c : FaultConfig) (fault_id : String)
    (random_value : Rat) : Bool :=
  random_value < c.get fault_id

/-! ## Connection handlers (C6)

Embeds the control flow of `OptimizedConnectionHandler::run` /
`try_execute_command` (`production/connection_optimized.rs:42-139`) and
of `ConnectionHandler::try_execute_command`
(`production/connection.rs:53-72`).  The RESP codec
(`redis/resp_optimized.rs`, `redis/resp.rs`) and `Command::from_resp`
(`redis/commands.rs`) are not among the available sources, so the
handler is parameterised by the incremental parse function and the
resp-to-command decoder; the shard state is abstracted as a step
function.  Bytes are modelled as `Nat`; the write buffer as the list of
entries encoded into it, tagged by the call site that produced them. -/

inductive ParseOutcome where
  | parsed (v : RespValue) (rest : List Nat)
  | incomplete
  | protoErr (e : String)

/-- One entry appended to the connection's write buffer:
`reply` for `encode_resp_into` of an executed command's response,
`cmdErr` for `encode_error_into` on a `Command::from_resp` failure,
`protoErrReply` for `encode_error_into("protocol error")` after a parse
failure, `overflowErrReply` for `encode_error_into("buffer overflow")`. -/
inductive WriteEntry where
  | reply (v : RespValue)
  | cmdErr (msg : String)
  | protoErrReply
  | overflowErrReply
  deriving Repr, BEq

/-- The environment of a connection: the incremental RESP parse
function, the resp-to-command decoder and the sharded-state step. -/
structure ConnEnv (S : Type) where
  parse : List Nat → ParseOutcome
  fromResp : RespValue → Except String Command
  execCmd : S → Command → S × RespValue

/-- `CommandResult` (`production/connection_optimized.rs:192-196`),
with the executed case carrying the resulting state, remaining buffer
and appended write entry. -/
inductive CommandResult (S : Type) where
  | Executed (st : S) (buf : List Nat) (entry : WriteEntry)
  | NeedMoreData
  | ParseError (e : String)

/-- `OptimizedConnectionHandler::try_execute_command`
(`connection_optimized.rs:121-139`): parse one value; on success decode
and execute it (a decode failure is a command error, still `Executed`);
`Ok(None)` is `NeedMoreData`; a parse failure is `ParseError`. -/
def tryExecuteCommand {S : Type} (env : ConnEnv S) (st : S) (buf : List Nat) :
    CommandResult S :=
  match env.parse buf with
  | .parsed v rest =>
      match env.fromResp v with
      | .ok cmd =>
          let r := env.execCmd st cmd
          .Executed r.1 rest (.reply r.2)
      | .error e => .Executed st rest (.cmdErr e)
  | .incomplete => .NeedMoreData
  | .protoErr e => .ParseError e

/-- The inner pipelining loop of `OptimizedConnectionHandler::run`
(`connection_optimized.rs:72-87`): process commands until
`NeedMoreData`; on `ParseError` drain (clear) the read buffer, append
one `protocol error` reply and stop the batch, remembering
`had_parse_error`.  The loop is fuelled; a parse that consumes at least
one byte per parsed value never exhausts `buf.length + 1` fuel. -/
def batchLoop {S : Type} (env : ConnEnv S) :
    Nat → S → List Nat → List WriteEntry → S × List Nat × List WriteEntry × Bool
  | 0, st, buf, wbuf => (st, buf, wbuf, false)
  | fuel + 1, st, buf, wbuf =>
      match tryExecuteCommand env st buf with
      | .Executed st' rest entry => batchLoop env fuel st' rest (wbuf ++ [entry])
      | .NeedMoreData => (st, buf, wbuf, false)
      | .ParseError _ => (st, [], wbuf ++ [.protoErrReply], true)

/-- Result of handling one successful socket read (`Ok(n)` branch of
`OptimizedConnectionHandler::run`, lines 58-108): the new shard state
and read buffer, the entries flushed to the socket, and whether the
handler broke out of the connection loop. -/
structure ReadStep (S : Type) where
  st : S
  buf : List Nat
  flushed : List WriteEntry
  closed : Bool

def MAX_BUFFER_SIZE : Nat := 1024 * 1024

/-- One `Ok(n)` iteration of `OptimizedConnectionHandler::run`: overflow
check (error reply and close), else append the chunk, run the batch
loop, flush the write buffer and continue — the `had_parse_error` flag
is tested by an empty `if` body (line 103-105) and the loop continues to
the next read whether or not a parse error occurred. -/
def readStep {S : Type} (env : ConnEnv S) (st : S) (buf chunk : List Nat) :
    ReadStep S :=
  if buf.length + chunk.length > MAX_BUFFER_SIZE then
    { st := st, buf := buf, flushed := [.overflowErrReply], closed := true }
  else
    let buf := buf ++ chunk
    let r := batchLoop env (buf.length + 1) st buf []
    { st := r.1, buf := r.2.1, flushed := r.2.2.1, closed := false }

/-- The connection loop over a sequence of socket reads (EOF after the
last chunk closes the connection, as in the `Ok(0)` arm).  Returns the
concatenation of all flushed entries. -/
def runReads {S : Type} (env : ConnEnv S) : S → List Nat → List (List Nat) →
    S × List WriteEntry
  | st, _, [] => (st, [])
  | st, buf, chunk :: rest =>
      let r := readStep env st buf chunk
      if r.closed then (r.st, r.flushed)
      else
        let k := runReads env r.st r.buf rest
        (k.1, r.flushed ++ k.2)

/-- `ConnectionHandler::try_execute_command` (`connection.rs:53-72`):
the basic handler maps a parse failure to `None` — indistinguishable
from incomplete input; no error reply is emitted and the read loop
simply waits for more bytes. -/
def basicTryExecuteCommand {S : Type} (env : ConnEnv S) (st : S)
    (buf : List Nat) : Option (S × List Nat × WriteEntry) :=
  match env.parse buf with
  | .parsed v rest =>
      match env.fromResp v with
      | .ok cmd =>
          let r := env.execCmd st cmd
          some (r.1, rest, .reply r.2)
      | .error e => some (st, rest, .cmdErr ("ERR ".append e))
  | .incomplete => none
  | .protoErr _ => none

/-! ## Consistent hash ring (C3)

Embeds `HashRing` (`replication/hash_ring.rs`).  The stable 64-bit
hashes (`DefaultHasher`) are parameters `hv` (virtual-node position
hash) and `hk` (key hash), truncated to `u64`.  `sort_by_key` is
modelled by a stable insertion sort on the ring position. -/

structure VirtualNode where
  physical_node : Nat
  virtual_index : Nat
  deriving Repr, BEq, DecidableEq

structure HashRing where
  ring : List (Nat × VirtualNode)
  virtual_nodes_per_physical : Nat
  replication_factor : Nat
  physical_nodes : List Nat
  version : Nat
  deriving Repr, BEq, DecidableEq

/-- Stable insertion of one entry into a position-sorted ring. -/
def insertByPos (e : Nat × VirtualNode) : List (Nat × VirtualNode) →
    List (Nat × VirtualNode)
  | [] => [e]
  | x :: xs => if e.1 ≤ x.1 then e :: x :: xs else x :: insertByPos e xs

/-- `self.ring.sort_by_key(|(pos, _)| *pos)` — stable sort by ring
position. -/
def sortByPos : List (Nat × VirtualNode) → List (Nat × VirtualNode)
  | [] => []
  | x :: xs => insertByPos x (sortByPos xs)

/-- `HashRing::add_node` (`hash_ring.rs:88-105`): skip nodes already
present; otherwise record the physical node, push its
`virtual_nodes_per_physical` virtual nodes at their hashed positions,
re-sort the ring and bump the version. -/
def HashRing.add_node (hv : Nat → Nat → Nat) (r : HashRing) (node : Nat) :
    HashRing :=
  if node ∈ r.physical_nodes then r
  else
    let vnodes := (List.range r.virtual_nodes_per_physical).map
      (fun i => (hv node i % 2 ^ 64, VirtualNode.mk node i))
    { r with physical_nodes := r.physical_nodes ++ [node],
             ring := sortByPos (r.ring ++ vnodes),
             version := r.version + 1 }

/-- `HashRing::new` (`hash_ring.rs:47-65`). -/
def HashRing.new (hv : Nat → Nat → Nat) (nodes : List Nat)
    (virtual_nodes_per_physical : Nat) (replication_factor : Nat) : HashRing :=
  nodes.foldl (HashRing.add_node hv)
    { ring := [], virtual_nodes_per_physical := virtual_nodes_per_physical,
      replication_factor := replication_factor, physical_nodes := [],
      version := 0 }

def HashRing.node_count (r : HashRing) : Nat :=
  r.physical_nodes.length

/-- The clockwise collection loop of `get_replicas_with_rf`
(`hash_ring.rs:137-153`).  `seen` and `replicas` always hold the same
physical nodes (both are updated in the same branch), so the loop state
is the single accumulator; `seen.len()` is its length.  The
`idx - start_idx >= ring_len` wrap check bounds the loop at
`ring.length` processed entries, which is the initial fuel. -/
def walkLoop (ring : List (Nat × VirtualNode)) (n physCount : Nat) :
    Nat → Nat → List Nat → List Nat
  | 0, _, acc => acc
  | fuel + 1, idx, acc =>
      if acc.length < n ∧ acc.length < physCount then
        match ring.get? (idx % ring.length) with
        | some e =>
            if e.2.physical_node ∈ acc then
              walkLoop ring n physCount fuel (idx + 1) acc
            else
              walkLoop ring n physCount fuel (idx + 1) (acc ++ [e.2.physical_node])
        | none => acc
      else acc

/-- `HashRing::get_replicas_with_rf` (`hash_ring.rs:123-156`): empty
ring yields no replicas; otherwise hash the key, locate the first ring
position `>=` the hash (the insertion point wraps to index 0 past the
end, and for a present position the binary search lands on an index
holding that position — modelled as the first such index), and walk
clockwise collecting distinct physical replicas, capped at
`min(rf, physical node count)`. -/
def HashRing.get_replicas_with_rf (hk : String → Nat) (r : HashRing)
    (key : String) (rf : Nat) : List Nat :=
  if r.ring = [] then []
  else
    let key_pos := hk key % 2 ^ 64
    let start_idx := (r.ring.findIdx (fun p => key_pos ≤ p.1)) % r.ring.length
    let n := min rf r.physical_nodes.length
    walkLoop r.ring n r.physical_nodes.length r.ring.length start_idx []

/-- `HashRing::get_replicas` (`hash_ring.rs:115-117`). -/
def HashRing.get_replicas (hk : String → Nat) (r : HashRing) (key : String) :
    List Nat :=
  r.get_replicas_with_rf hk key r.replication_factor

/-! ## Concrete instances used by witnesses and counterexamples -/

/-- Two replicated values with the same Lamport tuple but different
payloads (two distinct writes can only share a tuple across replicas
with colliding ids; the type does not rule the pair out). -/
def rvX : ReplicatedValue :=
  { payload := some "x", tombstone := false,
    lamport := { time := 1, replica_id := 1 }, vclock := none,
    expiry_ms := none }

def rvY : ReplicatedValue :=
  { payload := some "y", tombstone := false,
    lamport := { time := 1, replica_id := 1 }, vclock := none,
    expiry_ms := none }

/-- A shard whose executor already holds `"k" -> "old"` as a string. -/
def c4Shard : ReplicatedShard :=
  { executor := { data := [("k", Value.str "old")], expires := [], now := 0 },
    replica_state := ShardReplicaState.new 1 }

def emptyShard : ReplicatedShard :=
  { executor := ExecutorState.new, replica_state := ShardReplicaState.new 1 }

/-- A replicated sharded state with replication enabled and a delta sink
installed, all shards empty. -/
def rssInit : ReplicatedShardedState :=
  { shards := fun _ => emptyShard, config_enabled := true,
    has_delta_sink := true, gossip_queued := [], sink_sent := [] }

/-- A toy connection environment: byte `1` parses to `PING`, any other
leading byte is malformed, the empty buffer is incomplete. -/
def toyEnv : ConnEnv Nat :=
  { parse := fun b =>
      match b with
      | [] => .incomplete
      | 1 :: rest => .parsed (RespValue.SimpleString "PING") rest
      | _ :: _ => .protoErr "bad"
    fromResp := fun _ => .ok Command.Ping
    execCmd := fun s _ => (s + 1, RespValue.SimpleString "PONG") }

def WriteEntry.isProtoErr : WriteEntry → Bool
  | .protoErrReply => true
  | _ => false

/-! ## Helper lemmas -/

theorem nodup_length_le {l1 l2 : List Nat} (h1 : l1.Nodup) (hs : l1 ⊆ l2) :
    l1.length ≤ l2.length := by
  calc l1.length = l1.toFinset.card := (List.toFinset_card_of_nodup h1).symm
    _ ≤ l2.toFinset.card := Finset.card_le_card (fun x hx => by
        rw [List.mem_toFinset] at hx ⊢; exact hs hx)
    _ ≤ l2.length := l2.toFinset_card_le

theorem listLookup_filter_ne {α : Type} (m : List (String × α)) (k : String) :
    listLookup (m.filter (fun p => p.1 ≠ k)) k = none := by
  induction m with
  | nil => rfl
  | cons p rest ih =>
      by_cases hp : p.1 = k
      · simpa [List.filter_cons, hp] using ih
      · simp [List.filter_cons, listLookup, List.find?_cons, hp]

theorem lazyExpire_of_expires_none (st : ExecutorState) (key : String)
    (h : listLookup st.expires key = none) : st.lazyExpire key = st := by
  simp [ExecutorState.lazyExpire, h]

theorem LamportClock.lt_iff (x y : LamportClock) :
    LamportClock.lt x y = true ↔
      x.time < y.time ∨ (x.time = y.time ∧ x.replica_id < y.replica_id) := by
  simp [LamportClock.lt]

theorem LamportClock.lt_eq_false_iff (x y : LamportClock) :
    LamportClock.lt x y = false ↔
      y.time < x.time ∨ (x.time = y.time ∧ y.replica_id ≤ x.replica_id) := by
  simp [LamportClock.lt]
  omega

theorem LamportClock.lt_trans {x y z : LamportClock}
    (h1 : LamportClock.lt x y = true) (h2 : LamportClock.lt y z = true) :
    LamportClock.lt x z = true := by
  rw [LamportClock.lt_iff] at h1 h2 ⊢; omega

theorem LamportClock.not_lt_trans {x y z : LamportClock}
    (h1 : LamportClock.lt x y = false) (h2 : LamportClock.lt y z = false) :
    LamportClock.lt x z = false := by
  rw [LamportClock.lt_eq_false_iff] at h1 h2 ⊢; omega

theorem LamportClock.lt_asymm_of_ne {x y : LamportClock} (h : x ≠ y) :
    (LamportClock.lt x y = true ∧ LamportClock.lt y x = false) ∨
    (LamportClock.lt x y = false ∧ LamportClock.lt y x = true) := by
  have hne : x.time ≠ y.time ∨ x.replica_id ≠ y.replica_id := by
    by_contra hcon
    push_neg at hcon
    exact h (by cases x; cases y; simp_all)
  by_cases hxy : LamportClock.lt x y = true
  · refine Or.inl ⟨hxy, ?_⟩
    rw [LamportClock.lt_iff] at hxy
    rw [LamportClock.lt_eq_false_iff]
    omega
  · have hxy' : LamportClock.lt x y = false := by
      simpa using hxy
    refine Or.inr ⟨hxy', ?_⟩
    rw [LamportClock.lt_eq_false_iff] at hxy'
    rw [LamportClock.lt_iff]
    omega

/-! ## Claim C1 — CRDT merge algebra -/

/-- C1 counterexample: as stated the claim is false — `merge` is not
commutative on the pair of replicated values `rvX`, `rvY` that carry the
same `(lamport_time, replica_id)` tuple but different payloads: the
receiver wins an exact tuple tie, so each order keeps its own left
operand. -/
theorem C1_counterexample :
    ReplicatedValue.merge rvX rvY ≠ ReplicatedValue.merge rvY rvX ∧
    ReplicatedValue.merge rvX rvY = rvX ∧
    ReplicatedValue.merge rvY rvX = rvY := by
  refine ⟨?_, by decide, by decide⟩
  decide

/-- C1 (amended): merge is associative and idempotent for all
replicated values, commutative whenever the operands' Lamport tuples
differ, and the winner is the operand with the larger
`(lamport_time, replica_id)` tuple — ties on `time` broken by the higher
`replica_id`, an exact tuple tie keeping the receiver; tombstones
participate in the comparison exactly like writes (the winner depends
only on the Lamport tuples). -/
theorem C1_merge_lww :
    (∀ a b : ReplicatedValue, a.lamport ≠ b.lamport →
        a.merge b = b.merge a) ∧
    (∀ a b c : ReplicatedValue, (a.merge b).merge c = a.merge (b.merge c)) ∧
    (∀ a : ReplicatedValue, a.merge a = a) ∧
    (∀ a b : ReplicatedValue, LamportClock.lt a.lamport b.lamport = true →
        a.merge b = b) ∧
    (∀ a b : ReplicatedValue, LamportClock.lt a.lamport b.lamport = false →
        a.merge b = a) ∧
    (∀ a b : ReplicatedValue, a.lamport.time = b.lamport.time →
        a.lamport.replica_id < b.lamport.replica_id → a.merge b = b) := by
  refine ⟨?_, ?_, ?_, ?_, ?_, ?_⟩
  · intro a b h
    rcases LamportClock.lt_asymm_of_ne h with ⟨h1, h2⟩ | ⟨h1, h2⟩ <;>
      simp [ReplicatedValue.merge, h1, h2]
  · intro a b c
    by_cases h1 : LamportClock.lt a.lamport b.lamport = true
    · by_cases h2 : LamportClock.lt b.lamport c.lamport = true
      · simp [ReplicatedValue.merge, h1, h2, LamportClock.lt_trans h1 h2]
      · simp [ReplicatedValue.merge, h1, h2]
    · by_cases h2 : LamportClock.lt b.lamport c.lamport = true
      · simp [ReplicatedValue.merge, h1, h2]
      · have h1' : LamportClock.lt a.lamport b.lamport = false := by simpa using h1
        have h2' : LamportClock.lt b.lamport c.lamport = false := by simpa using h2
        have h3 := LamportClock.not_lt_trans h1' h2'
        simp [ReplicatedValue.merge, h1, h2, h3]
  · intro a
    simp [ReplicatedValue.merge]
  · intro a b h
    simp [ReplicatedValue.merge, h]
  · intro a b h
    simp [ReplicatedValue.merge, h]
  · intro a b ht hr
    have : LamportClock.lt a.lamport b.lamport = true := by
      rw [LamportClock.lt_iff]; omega
    simp [ReplicatedValue.merge, this]

/-- C1 witness: the amended theorem at concrete values — commutativity
at distinct tuples, and the tombstone/write tie handled by the higher
replica id. -/
theorem C1_witness :
    ({ rvX with lamport := { time := 2, replica_id := 1 } } : ReplicatedValue).lamport ≠ rvY.lamport ∧
    ReplicatedValue.merge { rvX with lamport := { time := 2, replica_id := 1 } } rvY =
      ReplicatedValue.merge rvY { rvX with lamport := { time := 2, replica_id := 1 } } := by
  refine ⟨by decide, ?_⟩
  exact C1_merge_lww.1 _ _ (by decide)

/-! ## Claim C2 — key-to-shard routing -/

/-- C2: for every stable hash `h`, the owning shard of a key is the
64-bit hash of the key modulo `NUM_SHARDS = 16`, a value below 16 (so
each key is owned by exactly the one shard `hash_key h key`); the
lock-based (`sharded_state.rs`), actor-based (`sharded_actor.rs`) and
replicated (`replicated_state.rs`) states use the same function; and
the dispatcher executes a single-key command on exactly the owning
shard, leaving every other shard untouched. -/
theorem C2_key_to_shard_routing :
    (∀ (h : String → Nat) (key : String),
        ShardedState.hash_key h key = (h key % 2 ^ 64) % 16 ∧
        ShardedState.hash_key h key < 16) ∧
    (∀ (h : String → Nat) (key : String),
        ShardedActor.hash_key h key = ShardedState.hash_key h key ∧
        ReplicatedState.hash_key h key = ShardedState.hash_key h key) ∧
    (∀ (E : Type) (h : String → Nat) (step : Command → E → E × RespValue)
        (shards : Fin NUM_SHARDS → E) (cmd : Command) (key : String),
        cmd.get_primary_key = some key →
        (ShardedState.executeDefaultArm h step shards cmd).2 =
            (step cmd (shards (shardIdxOf h key))).2 ∧
        (ShardedState.executeDefaultArm h step shards cmd).1 (shardIdxOf h key) =
            (step cmd (shards (shardIdxOf h key))).1 ∧
        (∀ j : Fin NUM_SHARDS, j ≠ shardIdxOf h key →
            (ShardedState.executeDefaultArm h step shards cmd).1 j = shards j)) := by
  refine ⟨?_, ?_, ?_⟩
  · intro h key
    exact ⟨rfl, Nat.mod_lt _ (by decide)⟩
  · intro h key
    exact ⟨rfl, rfl⟩
  · intro E h step shards cmd key hkey
    have harm : ShardedState.executeDefaultArm h step shards cmd =
        (Function.update shards (shardIdxOf h key)
          (step cmd (shards (shardIdxOf h key))).1,
         (step cmd (shards (shardIdxOf h key))).2) := by
      simp only [ShardedState.executeDefaultArm, hkey]
      rfl
    refine ⟨?_, ?_, ?_⟩
    · rw [harm]
    · rw [harm]
      exact Function.update_same _ _ _
    · intro j hj
      rw [harm]
      exact Function.update_noteq hj _ _

/-- C2 witness: the routing theorem at a concrete hash, state and
command — `GET "ab"` with the length hash lands on shard 2 and returns
that shard's reply. -/
theorem C2_witness :
    (Command.Get "ab").get_primary_key = some "ab" ∧
    (ShardedState.executeDefaultArm (fun s => s.length)
        (fun _ (n : Nat) => (n + 1, RespValue.Integer 7))
        (fun _ => (0 : Nat)) (Command.Get "ab")).2 = RespValue.Integer 7 := by
  refine ⟨rfl, ?_⟩
  have h := (C2_key_to_shard_routing.2.2 Nat (fun s => s.length)
      (fun _ (n : Nat) => (n + 1, RespValue.Integer 7))
      (fun _ => (0 : Nat)) (Command.Get "ab") "ab" rfl).1
  rw [h]

/-! ## Claim C5 — lazy expiry -/

/-- C5: on any executor state whose key has an expiry entry
`e ≤ now` (including the boundary `e = now`), the lazy-expiry pass
removes the key from both the data and the expiry maps, a GET returns
nil, and the operation proceeds as if the key were absent (a SETNX on
the expired key sets it and replies 1).  Modelled from the spec
(section 4.3); `redis/commands.rs` is not among the available
sources. -/
theorem C5_lazy_expiry (st : ExecutorState) (key : String) (e : Nat)
    (hexp : listLookup st.expires key = some e) (hle : e ≤ st.now) :
    listLookup (st.lazyExpire key).data key = none ∧
    listLookup (st.lazyExpire key).expires key = none ∧
    (st.execGet key).2 = RespValue.BulkString none ∧
    (st.execSetNx key "fresh").2 = RespValue.Integer 1 := by
  have hlaz : st.lazyExpire key =
      { st with data := st.data.filter (fun p => p.1 ≠ key),
                expires := st.expires.filter (fun p => p.1 ≠ key) } := by
    simp [ExecutorState.lazyExpire, hexp, hle]
  have hnone : listLookup (st.lazyExpire key).data key = none := by
    rw [hlaz]
    exact listLookup_filter_ne _ _
  refine ⟨hnone, ?_, ?_, ?_⟩
  · rw [hlaz]
    exact listLookup_filter_ne _ _
  · simp [ExecutorState.execGet, hnone]
  · simp [ExecutorState.execSetNx, hnone]

/-- C5 witness: a key stored with value `"v"` and expiry exactly equal
to `now` is invisible to GET and free for SETNX. -/
theorem C5_witness :
    listLookup (ExecutorState.mk [("k", Value.str "v")] [("k", 5)] 5).expires "k" =
      some 5 ∧
    (ExecutorState.mk [("k", Value.str "v")] [("k", 5)] 5).now = 5 ∧
    ((ExecutorState.mk [("k", Value.str "v")] [("k", 5)] 5).execGet "k").2 =
      RespValue.BulkString none := by
  refine ⟨by decide, rfl, ?_⟩
  exact (C5_lazy_expiry (ExecutorState.mk [("k", Value.str "v")] [("k", 5)] 5)
    "k" 5 (by decide) (by decide)).2.2.1

/-! ## Claim C7 — buffer pool -/

/-- Pool well-formedness: every pooled buffer is cleared and the pool
respects the `ArrayQueue` bound. -/
def BufferPoolAsync.wf (p : BufferPoolAsync) : Prop :=
  (∀ b ∈ p.pool, b.len = 0) ∧ p.pool.length ≤ p.size

/-- C7 counterexample: as stated the claim is false — `release` is not
an `iff` on the capacity test alone.  A freshly built pool of bound 1 is
already full, and releasing a buffer of admissible capacity (9000 ≤
2 × 8192) leaves the pool unchanged: the buffer is dropped, not
returned. -/
theorem C7_counterexample :
    (9000 ≤ (BufferPoolAsync.new 1 8192).capacity * 2) ∧
    (BufferPoolAsync.new 1 8192).release { len := 0, cap := 9000 } =
      BufferPoolAsync.new 1 8192 ∧
    ((BufferPoolAsync.new 1 8192).release { len := 0, cap := 9000 }).pool =
      [BytesMut.with_capacity 8192] := by
  refine ⟨by decide, by decide, by decide⟩

/-- C7 (amended): on a well-formed pool, `acquire` always returns a
cleared buffer — the front of the pool when one is available, a fresh
nominal-capacity buffer otherwise; `release` clears the buffer and
returns it to the pool if and only if its capacity is at most twice the
nominal capacity AND the bounded queue is not full, dropping it
otherwise; both operations preserve well-formedness, so the pool never
holds more buffers than its bound. -/
theorem C7_buffer_pool :
    (∀ s c, (BufferPoolAsync.new s c).wf) ∧
    (∀ p : BufferPoolAsync, p.wf →
        (p.acquire.1.len = 0 ∧ p.acquire.2.wf)) ∧
    (∀ p : BufferPoolAsync, ∀ b rest, p.pool = b :: rest →
        p.acquire = (b, { p with pool := rest })) ∧
    (∀ p : BufferPoolAsync, p.pool = [] →
        p.acquire = (BytesMut.with_capacity p.capacity, p)) ∧
    (∀ (p : BufferPoolAsync) (buf : BytesMut),
        buf.cap ≤ p.capacity * 2 → p.pool.length < p.size →
        p.release buf = { p with pool := p.pool ++ [{ buf with len := 0 }] }) ∧
    (∀ (p : BufferPoolAsync) (buf : BytesMut),
        ¬(buf.cap ≤ p.capacity * 2 ∧ p.pool.length < p.size) →
        p.release buf = p) ∧
    (∀ (p : BufferPoolAsync) (buf : BytesMut), p.wf → (p.release buf).wf) := by
  refine ⟨?_, ?_, ?_, ?_, ?_, ?_, ?_⟩
  · intro s c
    constructor
    · intro b hb
      rw [List.eq_of_mem_replicate hb]
      rfl
    · simp [BufferPoolAsync.new]
  · intro p hwf
    rcases hp : p.pool with _ | ⟨b, rest⟩
    · have ha : p.acquire = (BytesMut.with_capacity p.capacity, p) := by
        simp [BufferPoolAsync.acquire, hp]
      rw [ha]
      exact ⟨rfl, hwf⟩
    · have ha : p.acquire = (b, { p with pool := rest }) := by
        simp [BufferPoolAsync.acquire, hp]
      rw [ha]
      refine ⟨hwf.1 b (by rw [hp]; exact List.mem_cons_self b rest), ?_, ?_⟩
      · intro x hx
        exact hwf.1 x (by rw [hp]; exact List.mem_cons_of_mem b hx)
      · have h2 := hwf.2
        rw [hp] at h2
        simp only [List.length_cons] at h2
        simp only
        omega
  · intro p b rest hp
    simp [BufferPoolAsync.acquire, hp]
  · intro p hp
    simp [BufferPoolAsync.acquire, hp]
  · intro p buf hcap hlen
    simp [BufferPoolAsync.release, hcap, hlen]
  · intro p buf hnot
    by_cases hcap : buf.cap ≤ p.capacity * 2
    · have hlen : ¬ p.pool.length < p.size := fun hl => hnot ⟨hcap, hl⟩
      simp [BufferPoolAsync.release, hcap, hlen]
    · simp [BufferPoolAsync.release, hcap]
  · intro p buf hwf
    by_cases hcap : buf.cap ≤ p.capacity * 2
    · by_cases hlen : p.pool.length < p.size
      · refine ⟨?_, ?_⟩
        · intro b hb
          simp only [BufferPoolAsync.release, hcap, hlen, if_true, if_pos] at hb
          rcases List.mem_append.mp hb with hb | hb
          · exact hwf.1 b hb
          · simp at hb
            rw [hb]
        · simp only [BufferPoolAsync.release, hcap, hlen, if_true, if_pos]
          simp
          omega
      · simpa [BufferPoolAsync.release, hcap, hlen] using hwf
    · simpa [BufferPoolAsync.release, hcap] using hwf

/-- C7 witness: the amended release rule at concrete inputs — a pool of
bound 2 holding one buffer accepts an admissible release. -/
theorem C7_witness :
    (100 ≤ (BufferPoolAsync.mk [BytesMut.with_capacity 50] 2 50).capacity * 2) ∧
    ((BufferPoolAsync.mk [BytesMut.with_capacity 50] 2 50).pool.length < 2) ∧
    (BufferPoolAsync.mk [BytesMut.with_capacity 50] 2 50).release
        { len := 7, cap := 100 } =
      BufferPoolAsync.mk [BytesMut.with_capacity 50, { len := 0, cap := 100 }] 2 50 := by
  refine ⟨by decide, by decide, ?_⟩
  rw [C7_buffer_pool.2.2.2.2.1 _ { len := 7, cap := 100 } (by decide) (by decide)]
  rfl

/-! ## Claim C8 — BUGGIFY trigger predicate -/

/-- C8 counterexample: as stated the claim is false — on the disabled
preset `should_trigger` does return `true` for the (out-of-range)
random value `-1`: the effective probability is `0` and `-1 < 0`. -/
theorem C8_counterexample :
    FaultConfig.disabled.should_trigger "network.packet_drop" (-1) = true := by
  decide

/-- C8 (amended): for every enabled configuration, `should_trigger`
holds iff the random value is below the stored probability (0 when the
fault id is absent) times the global multiplier, clamped to `[0, 1]`;
the disabled preset gives every fault effective probability 0, so
`should_trigger` never returns true for a nonnegative random value. -/
theorem C8_should_trigger :
    (∀ (c : FaultConfig) (id : String) (r : Rat), c.enabled = true →
        (c.should_trigger id r = true ↔
          r < ratClamp (((listLookup c.probabilities id).getD 0) *
            c.global_multiplier) 0 1)) ∧
    (∀ id : String, FaultConfig.disabled.get id = 0) ∧
    (∀ (id : String) (r : Rat), 0 ≤ r →
        FaultConfig.disabled.should_trigger id r = false) := by
  refine ⟨?_, ?_, ?_⟩
  · intro c id r hen
    simp [FaultConfig.should_trigger, FaultConfig.get, hen]
  · intro id
    rfl
  · intro id r hr
    have : FaultConfig.disabled.get id = 0 := rfl
    simp [FaultConfig.should_trigger, this]
    linarith

/-- C8 witness: the amended predicate at concrete inputs — on a fresh
config with `x -> 1/2`, a random value `1/4` triggers, and the disabled
preset does not trigger at random value `0`. -/
theorem C8_witness :
    ((FaultConfig.new.set "x" (1/2)).enabled = true) ∧
    ((FaultConfig.new.set "x" (1/2)).should_trigger "x" (1/4) = true) ∧
    ((0 : Rat) ≤ 0 ∧ FaultConfig.disabled.should_trigger "x" 0 = false) := by
  refine ⟨rfl, ?_, le_refl 0, C8_should_trigger.2.2 "x" 0 (le_refl 0)⟩
  rw [C8_should_trigger.1 (FaultConfig.new.set "x" (1/2)) "x" (1/4) rfl]
  norm_num [FaultConfig.new, FaultConfig.set, listInsert, listLookup, ratClamp]

/-! ## Claim C9 — shard mailbox failure -/

/-- C9 counterexample: as stated the claim is false for the plain shard
actor handle — on a mailbox send failure `ShardHandle::execute` replies
`Error("Shard unavailable")`, not `Error("ERR shard unavailable")`. -/
theorem C9_counterexample :
    ShardHandle.executeResult true none ≠
      RespValue.Error "ERR shard unavailable" ∧
    ShardHandle.executeResult true none = RespValue.Error "Shard unavailable" := by
  constructor
  · intro hcontra
    have := RespValue.Error.inj hcontra
    exact absurd this (by decide)
  · rfl

/-- C9 (amended): a mailbox send failure never panics or drops the
reply — for every pending reply state, the plain handle returns the
RESP error `Shard unavailable` and the replicated handle returns the
RESP error `ERR shard unavailable` (with no delta). -/
theorem C9_shard_unavailable :
    (∀ reply : Option RespValue,
        ShardHandle.executeResult true reply =
          RespValue.Error "Shard unavailable") ∧
    (∀ reply : Option (RespValue × Option ReplicationDelta),
        ReplicatedShardHandle.executeResult true reply =
          (RespValue.Error "ERR shard unavailable", none)) := by
  exact ⟨fun _ => rfl, fun _ => rfl⟩

/-! ## Claim C4 — delta recording -/

theorem listLookup_insert {α : Type} (m : List (String × α)) (k : String) (v : α) :
    listLookup (listInsert m k v) k = some v := by
  simp [listInsert, listLookup, List.find?_cons]

/-- C4 counterexample: as stated the claim is false — a SETNX that does
not set the key (the key `"k"` already holds the string `"old"`, the
reply is `0` and the data map is unchanged) still produces a
replication delta, and that delta carries the attempted value `"new"`,
not the post-execution state `"old"` of the key. -/
theorem C4_counterexample :
    (c4Shard.execute (Command.SetNx "k" "new")).2.1 = RespValue.Integer 0 ∧
    (c4Shard.execute (Command.SetNx "k" "new")).1.executor.data =
      [("k", Value.str "old")] ∧
    (c4Shard.execute (Command.SetNx "k" "new")).2.2 =
      some { key := "k",
             value := { payload := some "new", tombstone := false,
                        lamport := { time := 1, replica_id := 1 },
                        vclock := none, expiry_ms := none },
             origin := 1 } := by
  exact ⟨rfl, rfl, rfl⟩

/-- C4 (amended): `record_mutation_post_execute` yields no delta for
FLUSHDB, FLUSHALL, read-only and administrative commands; a SET always
yields a delta carrying the written value; a SETNX on an absent key
sets it, replies 1 and yields a delta carrying the stored value; but a
SETNX on a key already holding a string performs no mutation (reply 0,
executor unchanged) and still yields a delta carrying the attempted —
not the stored — value, because the post-execution check only tests
that the key holds a string. -/
theorem C4_delta_recording :
    (∀ sh : ReplicatedShard,
        (sh.record_mutation_post_execute Command.FlushDb).2 = none ∧
        (sh.record_mutation_post_execute Command.FlushAll).2 = none ∧
        (sh.record_mutation_post_execute Command.Ping).2 = none ∧
        (sh.record_mutation_post_execute Command.Info).2 = none ∧
        (∀ key, (sh.record_mutation_post_execute (Command.Get key)).2 = none) ∧
        (∀ pat, (sh.record_mutation_post_execute (Command.Keys pat)).2 = none)) ∧
    (∀ (sh : ReplicatedShard) (key value : String),
        ((sh.record_mutation_post_execute (Command.Set key value)).2).map
            (fun d => (d.key, d.value.payload)) = some (key, some value)) ∧
    (∀ (sh : ReplicatedShard) (key value : String),
        listLookup sh.executor.data key = none →
        listLookup sh.executor.expires key = none →
        ((sh.execute (Command.SetNx key value)).2.1 = RespValue.Integer 1 ∧
         listLookup (sh.execute (Command.SetNx key value)).1.executor.data key =
            some (Value.str value) ∧
         ((sh.execute (Command.SetNx key value)).2.2).map
            (fun d => (d.key, d.value.payload)) = some (key, some value))) ∧
    (∀ (sh : ReplicatedShard) (key old value : String),
        listLookup sh.executor.data key = some (Value.str old) →
        listLookup sh.executor.expires key = none →
        ((sh.execute (Command.SetNx key value)).2.1 = RespValue.Integer 0 ∧
         (sh.execute (Command.SetNx key value)).1.executor = sh.executor ∧
         ((sh.execute (Command.SetNx key value)).2.2).map
            (fun d => (d.key, d.value.payload)) = some (key, some value))) := by
  refine ⟨?_, ?_, ?_, ?_⟩
  · intro sh
    exact ⟨rfl, rfl, rfl, rfl, fun _ => rfl, fun _ => rfl⟩
  · intro sh key value
    rfl
  · intro sh key value hd he
    have hlaz := lazyExpire_of_expires_none sh.executor key he
    have hexec : sh.executor.execute (Command.SetNx key value) =
        ({ sh.executor with
            data := listInsert sh.executor.data key (Value.str value) },
         RespValue.Integer 1) := by
      simp [ExecutorState.execute, ExecutorState.execSetNx, hlaz, hd]
    refine ⟨?_, ?_, ?_⟩
    · simp [ReplicatedShard.execute, hexec]
    · simp [ReplicatedShard.execute, hexec, ReplicatedShard.record_mutation_post_execute,
        ExecutorState.get_data, listLookup_insert, Value.as_string]
    · simp [ReplicatedShard.execute, hexec, ReplicatedShard.record_mutation_post_execute,
        ExecutorState.get_data, listLookup_insert, Value.as_string,
        ShardReplicaState.record_write]
  · intro sh key old value hd he
    have hlaz := lazyExpire_of_expires_none sh.executor key he
    have hexec : sh.executor.execute (Command.SetNx key value) =
        (sh.executor, RespValue.Integer 0) := by
      simp [ExecutorState.execute, ExecutorState.execSetNx, hlaz, hd]
    refine ⟨?_, ?_, ?_⟩
    · simp [ReplicatedShard.execute, hexec]
    · simp [ReplicatedShard.execute, hexec, ReplicatedShard.record_mutation_post_execute,
        ExecutorState.get_data, hd, Value.as_string]
    · simp [ReplicatedShard.execute, hexec, ReplicatedShard.record_mutation_post_execute,
        ExecutorState.get_data, hd, Value.as_string, ShardReplicaState.record_write]

/-- C4 witness: the amended theorem at a concrete shard — a SETNX on an
absent key sets it and its delta carries the stored value. -/
theorem C4_witness :
    listLookup emptyShard.executor.data "k" = none ∧
    listLookup emptyShard.executor.expires "k" = none ∧
    (emptyShard.execute (Command.SetNx "k" "v")).2.1 = RespValue.Integer 1 ∧
    ((emptyShard.execute (Command.SetNx "k" "v")).2.2).map
        (fun d => (d.key, d.value.payload)) = some ("k", some "v") := by
  have h := C4_delta_recording.2.2.1 emptyShard "k" "v" rfl rfl
  exact ⟨rfl, rfl, h.1, h.2.2⟩

/-! ## Claim C10 — MSET deltas are discarded -/

theorem executeGlobalMSet_frame (h : String → Nat)
    (pairs : List (String × String)) :
    ∀ st : ReplicatedShardedState,
      (st.executeGlobalMSet h pairs).1.gossip_queued = st.gossip_queued ∧
      (st.executeGlobalMSet h pairs).1.sink_sent = st.sink_sent := by
  induction pairs with
  | nil => intro st; exact ⟨rfl, rfl⟩
  | cons p rest ih =>
      intro st
      have hrec := ih { st with shards :=
        (Function.update st.shards (shardIdxOf h p.1)
          ((st.shards (shardIdxOf h p.1)).execute (Command.Set p.1 p.2)).1) }
      exact hrec

theorem executeSingleKey_queues (h : String → Nat)
    (st : ReplicatedShardedState) (cmd : Command) (key : String)
    (d : ReplicationDelta)
    (hdelta : ((st.shards (shardIdxOf h key)).execute cmd).2.2 = some d)
    (hen : st.config_enabled = true) (hsink : st.has_delta_sink = true) :
    (st.executeSingleKey h cmd key).1.gossip_queued = st.gossip_queued ++ [d] ∧
    (st.executeSingleKey h cmd key).1.sink_sent = st.sink_sent ++ [d] := by
  simp [ReplicatedShardedState.executeSingleKey, hdelta, hen, hsink]

/-- C10: an MSET on the replicated sharded state applies its per-pair
SETs to the owning shards but discards the replication deltas they
generate — the gossip queue and the delta sink receive nothing — while
an equivalent single-key SET of the same key and value (with
replication enabled and a sink installed) queues its delta, carrying
the key and that value, to both the gossip backend and the sink. -/
theorem C10_mset_not_replicated :
    (∀ (h : String → Nat) (st : ReplicatedShardedState)
        (pairs : List (String × String)),
        (st.execute h (Command.MSet pairs)).1.gossip_queued = st.gossip_queued ∧
        (st.execute h (Command.MSet pairs)).1.sink_sent = st.sink_sent) ∧
    (∀ (h : String → Nat) (st : ReplicatedShardedState) (key value : String),
        st.config_enabled = true → st.has_delta_sink = true →
        ∃ d : ReplicationDelta,
          (st.execute h (Command.Set key value)).1.gossip_queued =
            st.gossip_queued ++ [d] ∧
          (st.execute h (Command.Set key value)).1.sink_sent =
            st.sink_sent ++ [d] ∧
          d.key = key ∧ d.value.payload = some value) := by
  constructor
  · intro h st pairs
    have hframe := executeGlobalMSet_frame h pairs st
    simpa [ReplicatedShardedState.execute, Command.get_primary_key] using hframe
  · intro h st key value hen hsink
    refine ⟨((st.shards (shardIdxOf h key)).replica_state.record_write
        key value none).2, ?_, ?_, rfl, rfl⟩
    · have hq := executeSingleKey_queues h st (Command.Set key value) key _
        rfl hen hsink
      simpa [ReplicatedShardedState.execute, Command.get_primary_key] using hq.1
    · have hq := executeSingleKey_queues h st (Command.Set key value) key _
        rfl hen hsink
      simpa [ReplicatedShardedState.execute, Command.get_primary_key] using hq.2

/-- C10 witness: the theorem at a concrete state — an MSET leaves the
gossip queue and sink empty; the equivalent single SET hands one and
the same delta to both. -/
theorem C10_witness :
    rssInit.config_enabled = true ∧
    rssInit.has_delta_sink = true ∧
    (rssInit.execute (fun s => s.length) (Command.MSet [("a", "1")])).1.gossip_queued = [] ∧
    (rssInit.execute (fun s => s.length) (Command.MSet [("a", "1")])).1.sink_sent = [] ∧
    ((rssInit.execute (fun s => s.length) (Command.Set "a" "1")).1.gossip_queued).length = 1 ∧
    (rssInit.execute (fun s => s.length) (Command.Set "a" "1")).1.gossip_queued =
      (rssInit.execute (fun s => s.length) (Command.Set "a" "1")).1.sink_sent := by
  have hm := C10_mset_not_replicated.1 (fun s => s.length) rssInit [("a", "1")]
  have hs := C10_mset_not_replicated.2 (fun s => s.length) rssInit "a" "1" rfl rfl
  rcases hs with ⟨d, h1, h2, _, _⟩
  refine ⟨rfl, rfl, ?_, ?_, ?_, ?_⟩
  · rw [hm.1]
    rfl
  · rw [hm.2]
    rfl
  · rw [h1]
    rfl
  · rw [h1, h2]
    rfl

/-! ## Claim C6 — protocol errors and the connection loop -/

theorem tryExecuteCommand_entry_not_protoErr {S : Type} (env : ConnEnv S)
    (st : S) (buf : List Nat) (st2 : S) (rest : List Nat) (entry : WriteEntry)
    (h : tryExecuteCommand env st buf = .Executed st2 rest entry) :
    WriteEntry.isProtoErr entry = false := by
  cases hp : env.parse buf with
  | parsed v r =>
      cases hf : env.fromResp v with
      | ok cmd =>
          have hstep : tryExecuteCommand env st buf =
              .Executed (env.execCmd st cmd).1 r
                (.reply (env.execCmd st cmd).2) := by
            simp only [tryExecuteCommand, hp, hf]
          rw [hstep] at h
          cases h
          rfl
      | error e =>
          have hstep : tryExecuteCommand env st buf = .Executed st r (.cmdErr e) := by
            simp only [tryExecuteCommand, hp, hf]
          rw [hstep] at h
          cases h
          rfl
  | incomplete =>
      have hstep : tryExecuteCommand env st buf = .NeedMoreData := by
        simp only [tryExecuteCommand, hp]
      rw [hstep] at h
      cases h
  | protoErr e =>
      have hstep : tryExecuteCommand env st buf = .ParseError e := by
        simp only [tryExecuteCommand, hp]
      rw [hstep] at h
      cases h

theorem batchLoop_parse_error {S : Type} (env : ConnEnv S) :
    ∀ (fuel : Nat) (st : S) (buf : List Nat) (wbuf : List WriteEntry),
      (batchLoop env fuel st buf wbuf).2.2.2 = true →
      (batchLoop env fuel st buf wbuf).2.1 = [] ∧
      ((batchLoop env fuel st buf wbuf).2.2.1).countP WriteEntry.isProtoErr =
        wbuf.countP WriteEntry.isProtoErr + 1 ∧
      ((batchLoop env fuel st buf wbuf).2.2.1).getLast? =
        some WriteEntry.protoErrReply := by
  intro fuel
  induction fuel with
  | zero =>
      intro st buf wbuf h
      simp [batchLoop] at h
  | succ f ih =>
      intro st buf wbuf h
      cases htry : tryExecuteCommand env st buf with
      | Executed st2 rest entry =>
          have hstep : batchLoop env (f + 1) st buf wbuf =
              batchLoop env f st2 rest (wbuf ++ [entry]) := by
            rw [batchLoop, htry]
          rw [hstep] at h ⊢
          have hrec := ih st2 rest (wbuf ++ [entry]) h
          refine ⟨hrec.1, ?_, hrec.2.2⟩
          rw [hrec.2.1, List.countP_append]
          have hent := tryExecuteCommand_entry_not_protoErr env st buf st2 rest
            entry htry
          simp [hent]
      | NeedMoreData =>
          have hstep : batchLoop env (f + 1) st buf wbuf = (st, buf, wbuf, false) := by
            rw [batchLoop, htry]
          rw [hstep] at h
          simp at h
      | ParseError e =>
          have hstep : batchLoop env (f + 1) st buf wbuf =
              (st, [], wbuf ++ [WriteEntry.protoErrReply], true) := by
            rw [batchLoop, htry]
          rw [hstep]
          refine ⟨rfl, ?_, List.getLast?_concat _⟩
          simp [List.countP_append, WriteEntry.isProtoErr]

/-- C6 counterexample: as stated the claim is false — after a malformed
chunk the optimized handler flushes one protocol-error reply but does
NOT close the connection (`closed = false`; the `had_parse_error` flag
guards an empty `if` body), and it keeps reading and executing: with a
toy parser where byte 1 is `PING` and byte 9 is malformed, the run over
the chunks `[9]` then `[1]` still executes the later `PING` (the state
counter reaches 1) and flushes its reply after the protocol error. -/
theorem C6_counterexample :
    (readStep toyEnv 0 [] [9]).closed = false ∧
    (readStep toyEnv 0 [] [9]).flushed = [WriteEntry.protoErrReply] ∧
    (runReads toyEnv 0 [] [[9], [1]]).1 = 1 ∧
    (runReads toyEnv 0 [] [[9], [1]]).2 =
      [WriteEntry.protoErrReply, WriteEntry.reply (RespValue.SimpleString "PONG")] := by
  exact ⟨rfl, rfl, rfl, rfl⟩

/-- C6 (amended): on malformed RESP within a read batch, the optimized
handler drains its read buffer, flushes a write buffer whose final entry
is the single protocol-error reply of the batch, and keeps the
connection open (it proceeds to the next read); the basic handler emits
nothing at all on a parse failure, treating it as incomplete input. -/
theorem C6_protocol_error_continues :
    (∀ (S : Type) (env : ConnEnv S) (st : S) (buf chunk : List Nat),
        ¬(buf.length + chunk.length > MAX_BUFFER_SIZE) →
        (batchLoop env ((buf ++ chunk).length + 1) st (buf ++ chunk) []).2.2.2 =
          true →
        ((readStep env st buf chunk).closed = false ∧
         (readStep env st buf chunk).buf = [] ∧
         ((readStep env st buf chunk).flushed).countP WriteEntry.isProtoErr = 1 ∧
         ((readStep env st buf chunk).flushed).getLast? =
           some WriteEntry.protoErrReply)) ∧
    (∀ (S : Type) (env : ConnEnv S) (st : S) (buf : List Nat) (e : String),
        env.parse buf = ParseOutcome.protoErr e →
        basicTryExecuteCommand env st buf = none) := by
  constructor
  · intro S env st buf chunk hsize herr
    have hb := batchLoop_parse_error env ((buf ++ chunk).length + 1) st
      (buf ++ chunk) [] herr
    have hread : readStep env st buf chunk =
        { st := (batchLoop env ((buf ++ chunk).length + 1) st (buf ++ chunk) []).1,
          buf := (batchLoop env ((buf ++ chunk).length + 1) st (buf ++ chunk) []).2.1,
          flushed := (batchLoop env ((buf ++ chunk).length + 1) st (buf ++ chunk) []).2.2.1,
          closed := false } := by
      simp [readStep, hsize]
    rw [hread]
    refine ⟨rfl, hb.1, ?_, hb.2.2⟩
    have := hb.2.1
    simpa using this
  · intro S env st buf e hp
    simp [basicTryExecuteCommand, hp]

/-- C6 witness: the amended theorem at the toy environment — the batch
over the malformed chunk `[9]` yields exactly one protocol-error reply
and leaves the connection open, and the basic handler yields nothing. -/
theorem C6_witness :
    (¬(([] : List Nat).length + [9].length > MAX_BUFFER_SIZE)) ∧
    (batchLoop toyEnv ((([] : List Nat) ++ [9]).length + 1) 0
        (([] : List Nat) ++ [9]) []).2.2.2 = true ∧
    (readStep toyEnv 0 [] [9]).closed = false ∧
    ((readStep toyEnv 0 [] [9]).flushed).countP WriteEntry.isProtoErr = 1 ∧
    toyEnv.parse [9] = ParseOutcome.protoErr "bad" ∧
    basicTryExecuteCommand toyEnv 0 [9] = none := by
  have h := C6_protocol_error_continues.1 Nat toyEnv 0 [] [9] (by decide) rfl
  have h2 := C6_protocol_error_continues.2 Nat toyEnv 0 [9] "bad" rfl
  exact ⟨by decide, rfl, h.1, h.2.2.1, rfl, h2⟩

/-! ## Claim C3 — hash-ring replica selection -/

theorem mod_window_cover (L idx k : Nat) (hk : k < L) :
    ∃ j, j < L ∧ (idx + j) % L = k := by
  have hL : 0 < L := Nat.lt_of_le_of_lt (Nat.zero_le k) hk
  have ha : idx % L < L := Nat.mod_lt _ hL
  by_cases hcase : idx % L ≤ k
  · refine ⟨k - idx % L, by omega, ?_⟩
    have hj : k - idx % L < L := by omega
    rw [Nat.add_mod, Nat.mod_eq_of_lt hj]
    have hsum : idx % L + (k - idx % L) = k := by omega
    rw [hsum, Nat.mod_eq_of_lt hk]
  · refine ⟨k + L - idx % L, by omega, ?_⟩
    have hj : k + L - idx % L < L := by omega
    rw [Nat.add_mod, Nat.mod_eq_of_lt hj]
    have hsum : idx % L + (k + L - idx % L) = k + L := by omega
    rw [hsum, Nat.add_mod_right, Nat.mod_eq_of_lt hk]

theorem mem_insertByPos (e x : Nat × VirtualNode)
    (l : List (Nat × VirtualNode)) :
    x ∈ insertByPos e l ↔ x = e ∨ x ∈ l := by
  induction l with
  | nil => simp [insertByPos]
  | cons y ys ih =>
      by_cases hc : e.1 ≤ y.1
      · simp [insertByPos, hc]
      · simp [insertByPos, hc, ih]
        tauto

theorem mem_sortByPos (x : Nat × VirtualNode) (l : List (Nat × VirtualNode)) :
    x ∈ sortByPos l ↔ x ∈ l := by
  induction l with
  | nil => simp [sortByPos]
  | cons y ys ih =>
      simp [sortByPos, mem_insertByPos, ih]

/-- The invariant the ring constructors maintain: no duplicate physical
nodes, every ring entry belongs to a tracked physical node, and (when
each node contributes at least one virtual node) every tracked node
appears on the ring. -/
def HashRing.wfRing (r : HashRing) : Prop :=
  r.physical_nodes.Nodup ∧
  (∀ e ∈ r.ring, e.2.physical_node ∈ r.physical_nodes) ∧
  (1 ≤ r.virtual_nodes_per_physical →
    ∀ p ∈ r.physical_nodes, ∃ e ∈ r.ring, e.2.physical_node = p)

theorem add_node_wfRing (hv : Nat → Nat → Nat) (r : HashRing) (node : Nat)
    (h : r.wfRing) :
    (r.add_node hv node).wfRing ∧
    (r.add_node hv node).virtual_nodes_per_physical =
      r.virtual_nodes_per_physical := by
  obtain ⟨h1, h2, h3⟩ := h
  by_cases hmem : node ∈ r.physical_nodes
  · constructor
    · simpa [HashRing.add_node, hmem] using ⟨h1, h2, h3⟩
    · simp [HashRing.add_node, hmem]
  · have hnew : r.add_node hv node =
        { r with physical_nodes := r.physical_nodes ++ [node],
                 ring := sortByPos (r.ring ++
                   (List.range r.virtual_nodes_per_physical).map
                     (fun i => (hv node i % 2 ^ 64, VirtualNode.mk node i))),
                 version := r.version + 1 } := by
      simp [HashRing.add_node, hmem]
    rw [hnew]
    refine ⟨⟨?_, ?_, ?_⟩, rfl⟩
    · simp [List.nodup_append, h1, hmem]
    · intro e he
      rw [mem_sortByPos] at he
      rcases List.mem_append.mp he with he | he
      · exact List.mem_append.mpr (Or.inl (h2 e he))
      · rcases List.mem_map.mp he with ⟨i, _, hei⟩
        rw [← hei]
        simp
    · intro hV p hp
      rcases List.mem_append.mp hp with hp | hp
      · obtain ⟨e, he, hep⟩ := h3 hV p hp
        exact ⟨e, (mem_sortByPos e _).mpr (List.mem_append.mpr (Or.inl he)), hep⟩
      · simp only [List.mem_singleton] at hp
        subst hp
        refine ⟨(hv p 0 % 2 ^ 64, VirtualNode.mk p 0), ?_, rfl⟩
        rw [mem_sortByPos]
        refine List.mem_append.mpr (Or.inr ?_)
        refine List.mem_map.mpr ⟨0, ?_, rfl⟩
        rw [List.mem_range]
        exact hV

theorem foldl_add_node_wfRing (hv : Nat → Nat → Nat) (nodes : List Nat) :
    ∀ r : HashRing, r.wfRing →
      ((nodes.foldl (HashRing.add_node hv) r).wfRing ∧
       (nodes.foldl (HashRing.add_node hv) r).virtual_nodes_per_physical =
         r.virtual_nodes_per_physical) := by
  induction nodes with
  | nil => intro r h; exact ⟨h, rfl⟩
  | cons x xs ih =>
      intro r h
      have ha := add_node_wfRing hv r x h
      have hrec := ih (r.add_node hv x) ha.1
      exact ⟨hrec.1, by rw [List.foldl_cons] at *; rw [hrec.2, ha.2]⟩

theorem new_wfRing (hv : Nat → Nat → Nat) (nodes : List Nat) (V RF : Nat) :
    (HashRing.new hv nodes V RF).wfRing ∧
    (HashRing.new hv nodes V RF).virtual_nodes_per_physical = V := by
  have hinit : (HashRing.mk [] V RF [] 0).wfRing := by
    refine ⟨List.nodup_nil, ?_, ?_⟩
    · intro e he
      simp at he
    · intro _ p hp
      simp at hp
  exact foldl_add_node_wfRing hv nodes (HashRing.mk [] V RF [] 0) hinit

/-- The clockwise walk collects exactly `n` distinct physical nodes:
starting from any index, `ring.length` steps of fuel visit every ring
entry, so as long as every tracked physical node appears on the ring
the accumulator can only stop at size `n`. -/
theorem walkLoop_spec (ring : List (Nat × VirtualNode)) (phys : List Nat)
    (hphys : phys.Nodup)
    (hmem : ∀ e ∈ ring, e.2.physical_node ∈ phys) (n : Nat)
    (hn : n ≤ phys.length) :
    ∀ (fuel idx : Nat) (acc : List Nat),
      acc.Nodup → (∀ a ∈ acc, a ∈ phys) → acc.length ≤ n →
      (∀ p ∈ phys, p ∈ acc ∨ ∃ j, j < fuel ∧ ∃ e,
          ring.get? ((idx + j) % ring.length) = some e ∧
          e.2.physical_node = p) →
      ((walkLoop ring n phys.length fuel idx acc).length = n ∧
       (walkLoop ring n phys.length fuel idx acc).Nodup) := by
  intro fuel
  induction fuel with
  | zero =>
      intro idx acc hnd hsub hlen hcov
      have hsubset : phys ⊆ acc := by
        intro p hp
        rcases hcov p hp with h | ⟨j, hj, _⟩
        · exact h
        · omega
      have hge := nodup_length_le hphys hsubset
      have hacc : acc.length = n := by omega
      exact ⟨hacc, hnd⟩
  | succ f ih =>
      intro idx acc hnd hsub hlen hcov
      by_cases hcond : acc.length < n ∧ acc.length < phys.length
      · rcases hring : ring.get? (idx % ring.length) with _ | e
        · exfalso
          have hlenring : ring.length = 0 := by
            by_contra hne
            have hpos : 0 < ring.length := Nat.pos_of_ne_zero hne
            have hidx : idx % ring.length < ring.length := Nat.mod_lt _ hpos
            rw [List.get?_eq_none] at hring
            omega
          have hnil : ring = [] := List.length_eq_zero.mp hlenring
          have hsubset : phys ⊆ acc := by
            intro p hp
            rcases hcov p hp with h | ⟨j, hj, e, he, _⟩
            · exact h
            · rw [hnil] at he
              simp at he
          have := nodup_length_le hphys hsubset
          omega
        · have hstep : walkLoop ring n phys.length (f + 1) idx acc =
              (if e.2.physical_node ∈ acc then
                walkLoop ring n phys.length f (idx + 1) acc
              else
                walkLoop ring n phys.length f (idx + 1)
                  (acc ++ [e.2.physical_node])) := by
            rw [walkLoop]
            rw [if_pos hcond, hring]
          rw [hstep]
          by_cases hacc : e.2.physical_node ∈ acc
          · rw [if_pos hacc]
            apply ih (idx + 1) acc hnd hsub hlen
            intro p hp
            rcases hcov p hp with h | ⟨j, hj, e2, he2, hpe⟩
            · exact Or.inl h
            · rcases Nat.eq_zero_or_pos j with rfl | hjpos
              · rw [Nat.add_zero] at he2
                rw [hring] at he2
                cases he2
                exact Or.inl (hpe ▸ hacc)
              · refine Or.inr ⟨j - 1, by omega, e2, ?_, hpe⟩
                have : idx + 1 + (j - 1) = idx + j := by omega
                rw [this]
                exact he2
          · rw [if_neg hacc]
            have hephys : e.2.physical_node ∈ phys :=
              hmem e (List.get?_mem hring)
            apply ih (idx + 1) (acc ++ [e.2.physical_node])
            · simp [List.nodup_append, hnd, hacc]
            · intro a ha
              rcases List.mem_append.mp ha with ha | ha
              · exact hsub a ha
              · simp only [List.mem_singleton] at ha
                exact ha ▸ hephys
            · simp only [List.length_append, List.length_singleton]
              omega
            · intro p hp
              rcases hcov p hp with h | ⟨j, hj, e2, he2, hpe⟩
              · exact Or.inl (List.mem_append.mpr (Or.inl h))
              · rcases Nat.eq_zero_or_pos j with rfl | hjpos
                · rw [Nat.add_zero] at he2
                  rw [hring] at he2
                  cases he2
                  exact Or.inl (List.mem_append.mpr (Or.inr (by simp [hpe])))
                · refine Or.inr ⟨j - 1, by omega, e2, ?_, hpe⟩
                  have : idx + 1 + (j - 1) = idx + j := by omega
                  rw [this]
                  exact he2
      · have hstep : walkLoop ring n phys.length (f + 1) idx acc = acc := by
          rw [walkLoop]
          rw [if_neg hcond]
        rw [hstep]
        have hle : acc.length ≤ phys.length := nodup_length_le hnd hsub
        have hacc : acc.length = n := by
          rcases Decidable.not_and_iff_or_not.mp hcond with h | h <;> omega
        exact ⟨hacc, hnd⟩

theorem get_replicas_with_rf_spec (hk : String → Nat) (r : HashRing)
    (hwf : r.wfRing) (hV : 1 ≤ r.virtual_nodes_per_physical)
    (key : String) (rf : Nat) :
    (r.get_replicas_with_rf hk key rf).length = min rf r.node_count ∧
    (r.get_replicas_with_rf hk key rf).Nodup := by
  obtain ⟨h1, h2, h3⟩ := hwf
  by_cases hemp : r.ring = []
  · have hres : r.get_replicas_with_rf hk key rf = [] := by
      unfold HashRing.get_replicas_with_rf
      rw [if_pos hemp]
    have hphys : r.physical_nodes = [] := by
      cases hp : r.physical_nodes with
      | nil => rfl
      | cons a as =>
          exfalso
          obtain ⟨e, he, _⟩ := h3 hV a (by rw [hp]; exact List.mem_cons_self a as)
          rw [hemp] at he
          simp at he
    rw [hres]
    simp [HashRing.node_count, hphys]
  · have hres : r.get_replicas_with_rf hk key rf =
        walkLoop r.ring (min rf r.physical_nodes.length)
          r.physical_nodes.length r.ring.length
          ((r.ring.findIdx (fun p => hk key % 2 ^ 64 ≤ p.1)) % r.ring.length)
          [] := by
      unfold HashRing.get_replicas_with_rf
      rw [if_neg hemp]
    have hcov : ∀ p ∈ r.physical_nodes, p ∈ ([] : List Nat) ∨ ∃ j,
        j < r.ring.length ∧ ∃ e,
        r.ring.get? (((r.ring.findIdx (fun p => hk key % 2 ^ 64 ≤ p.1)) %
          r.ring.length + j) % r.ring.length) = some e ∧
        e.2.physical_node = p := by
      intro p hp
      refine Or.inr ?_
      obtain ⟨e, he, hep⟩ := h3 hV p hp
      obtain ⟨k, hkidx⟩ := List.get?_of_mem he
      have hkbound : k < r.ring.length := by
        by_contra hge
        rw [List.get?_eq_none.mpr (by omega)] at hkidx
        cases hkidx
      obtain ⟨j, hj, hjk⟩ := mod_window_cover r.ring.length
        ((r.ring.findIdx (fun p => hk key % 2 ^ 64 ≤ p.1)) % r.ring.length) k
        hkbound
      exact ⟨j, hj, e, by rw [hjk]; exact hkidx, hep⟩
    have hmain := walkLoop_spec r.ring r.physical_nodes h1 h2
      (min rf r.physical_nodes.length) (Nat.min_le_right _ _) r.ring.length
      ((r.ring.findIdx (fun p => hk key % 2 ^ 64 ≤ p.1)) % r.ring.length) []
      List.nodup_nil (by intro a ha; simp at ha) (Nat.zero_le _) hcov
    rw [hres, HashRing.node_count]
    exact hmain

/-- C3 counterexample: as stated (over every ring configuration) the
claim is false — with zero virtual nodes per physical node the ring is
empty while two physical nodes are tracked, so `get_replicas_with_rf`
returns no replicas although `min(rf, node_count) = 2`. -/
theorem C3_counterexample :
    (HashRing.new (fun n i => n * 1000 + i) [1, 2] 0 3).get_replicas_with_rf
        (fun _ => 5) "k" 3 = [] ∧
    min 3 (HashRing.new (fun n i => n * 1000 + i) [1, 2] 0 3).node_count = 2 := by
  exact ⟨by decide, by decide⟩

/-- C3 (amended): for every pair of stable hashes, every node list,
every replication factor and every key, provided each physical node
contributes at least one virtual node (`V ≥ 1`, default 150), the
replicas returned by `get_replicas_with_rf` — hash the key, find the
first ring position at or after the hash, walk clockwise — are exactly
`min rf node_count` pairwise-distinct physical nodes. -/
theorem C3_replicas_count_distinct (hv : Nat → Nat → Nat)
    (hk : String → Nat) (nodes : List Nat) (V RF rf : Nat) (key : String)
    (hV : 1 ≤ V) :
    ((HashRing.new hv nodes V RF).get_replicas_with_rf hk key rf).length =
      min rf (HashRing.new hv nodes V RF).node_count ∧
    ((HashRing.new hv nodes V RF).get_replicas_with_rf hk key rf).Nodup := by
  obtain ⟨hwf, hVeq⟩ := new_wfRing hv nodes V RF
  exact get_replicas_with_rf_spec hk _ hwf (by rw [hVeq]; exact hV) key rf

/-- C3 witness: the amended theorem at a concrete ring — three nodes
with two virtual nodes each, rf = 2, yields exactly two distinct
replicas. -/
theorem C3_witness :
    (1 ≤ 2) ∧
    ((HashRing.new (fun n i => n * 1000 + i) [10, 20, 30] 2 3).get_replicas_with_rf
        (fun s => s.length) "key" 2).length =
      min 2 (HashRing.new (fun n i => n * 1000 + i) [10, 20, 30] 2 3).node_count := by
  exact ⟨by decide,
    (C3_replicas_count_distinct (fun n i => n * 1000 + i) (fun s => s.length)
      [10, 20, 30] 2 3 2 "key" (by decide)).1⟩

end RedisRust
